import Mathlib

set_option maxRecDepth 10000

/-!
Verification of the byte-level encode/decode contract of the
`fil_pasta_curves` serde layer (`src/serde_impl.rs`).

The serde adapter in `src/serde_impl.rs` is embedded directly.  The field
and curve modules of the repository (`fields::{Fp, Fq}`,
`curves::{EpAffine, EqAffine}`) are not part of the provided sources, so
their codec-facing operations (`to_repr`, `from_repr`, `to_bytes`,
`from_bytes_unchecked`) are modelled from the specification
(FieldCodec, PointCodec, ValidationPolicy).

Bytes are modelled as lists of naturals; a well-formed wire leaf has
length 32 and every entry below 256.  Machine arithmetic does not occur:
all arithmetic is exact over the field moduli.
-/

namespace FilPasta


/-- Little-endian value of a byte string. -/
def leVal : List ℕ → ℕ
  | [] => 0
  | b :: bs => b + 256 * leVal bs

/-- The `k`-byte little-endian encoding of `n` (truncating above `256 ^ k`). -/

def leBytes : ℕ → ℕ → List ℕ
  | 0, _ => []
  | k + 1, n => n % 256 :: leBytes k (n / 256)

/-- Modelled from the spec: a canonical field element, a residue strictly
below the modulus `M`. -/
structure FieldEl (M : ℕ) where
  val : ℕ
  isLt : val < M

instance {M : ℕ} : DecidableEq (FieldEl M) := fun a b =>
  decidable_of_iff (a.val = b.val) (by cases a; cases b; simp)

/-- The Pallas base field modulus (the prime `p`). -/

def Fp.MODULUS : ℕ :=
  0x40000000000000000000000000000000224698fc094cf91b992d30ed00000001

/-- The Vesta base field modulus (the prime `q`). -/

def Fq.MODULUS : ℕ :=
  0x40000000000000000000000000000000224698fc0994a8dd8c46eb2100000001

/-- The Pallas base field element type `Fp`. -/

abbrev Fp := FieldEl Fp.MODULUS

/-- The Vesta base field element type `Fq`. -/

abbrev Fq := FieldEl Fq.MODULUS

/-- Modelled from the spec: `FieldCodec.Encode`, the unique little-endian
32-byte representation of a canonical field element (the missing
`to_repr` of the fields module). -/

def FieldEl.to_repr {M : ℕ} (e : FieldEl M) : List ℕ := leBytes 32 e.val

/-- Modelled from the spec: `FieldCodec.Decode` in Checked mode — interpret
the bytes as a little-endian integer and succeed iff it is strictly below
the modulus (the missing `from_repr` of the fields module). -/

def fromRepr (M : ℕ) (bs : List ℕ) : Option (FieldEl M) :=
  if h : leVal bs < M then some ⟨leVal bs, h⟩ else none

def Fp.from_repr (bs : List ℕ) : Option Fp := fromRepr Fp.MODULUS bs

def Fq.from_repr (bs : List ℕ) : Option Fq := fromRepr Fq.MODULUS bs

/-- The single uniform decode error of the spec (`InvalidEncoding`); the
serde layer surfaces every decode failure as one `D::Error` value built
from the one `ERR_CODE` message. -/

inductive DecodeError where
  | invalidEncoding
deriving DecidableEq

instance {ε α : Type} [DecidableEq ε] [DecidableEq α] :
    DecidableEq (Except ε α) := fun a b =>
  match a, b with
  | .error e, .error f => decidable_of_iff (e = f) (by simp)
  | .ok x, .ok y => decidable_of_iff (x = y) (by simp)
  | .error _, .ok _ => isFalse (fun h => Except.noConfusion h)
  | .ok _, .error _ => isFalse (fun h => Except.noConfusion h)

/-- The serde adapter for a field element (`impl Deserialize for Fp` and
`Fq` in `src/serde_impl.rs`): consume a byte-string leaf, reject a leaf
whose length is not exactly 32 before the codec runs, then apply the
checked `from_repr`. -/

def fieldDeserialize (M : ℕ) (bs : List ℕ) : Except DecodeError (FieldEl M) :=
  if bs.length = 32 then
    match fromRepr M bs with
    | some e => .ok e
    | none => .error .invalidEncoding
  else .error .invalidEncoding

def Fp.deserialize (bs : List ℕ) : Except DecodeError Fp :=
  fieldDeserialize Fp.MODULUS bs

def Fq.deserialize (bs : List ℕ) : Except DecodeError Fq :=
  fieldDeserialize Fq.MODULUS bs

/-- The serde producer for a field element (`impl Serialize for Fp`/`Fq`):
emit `to_repr` as the byte-string leaf. -/

def Fp.serialize (e : Fp) : List ℕ := e.to_repr

def Fq.serialize (e : Fq) : List ℕ := e.to_repr

/-! ### Affine points

Modelled from the spec: `AffinePoint` is a tagged value, either `Identity`
or an on-curve pair `(x, y)`; both Pasta curves satisfy
`y ^ 2 = x ^ 3 + 5`.  The repository curves module is not under the
provided sources. -/

/-- Modelled from the spec: an affine point of the curve with base-field
modulus `M` — the distinguished identity, or a coordinate pair. -/

inductive AffinePt (M : ℕ) where
  | identity : AffinePt M
  | point (x y : ℕ) : AffinePt M
deriving DecidableEq

/-- The Pallas affine point type `EpAffine`. -/

abbrev EpAffine := AffinePt Fp.MODULUS

/-- The Vesta affine point type `EqAffine`. -/

abbrev EqAffine := AffinePt Fq.MODULUS

/-- The validity invariant of a live affine point: a non-identity point has
canonical coordinates satisfying the curve equation `y ^ 2 = x ^ 3 + 5`. -/

def AffinePt.IsValid {M : ℕ} : AffinePt M → Prop
  | .identity => True
  | .point x y => x < M ∧ y < M ∧ (y * y) % M = (x * x * x + 5) % M

instance {M : ℕ} : DecidablePred (AffinePt.IsValid (M := M)) := fun pt =>
  match pt with
  | .identity => .isTrue trivial
  | .point x y =>
      inferInstanceAs (Decidable (x < M ∧ y < M ∧ (y * y) % M = (x * x * x + 5) % M))

/-- Modelled from the spec: `PointCodec.Encode` (the missing `to_bytes`):
the identity maps to 32 zero bytes; a pair maps to the x-coordinate bytes
with the top bit of the final byte set to the parity of y.  For a
canonical x (below `2 ^ 255`) adding `2 ^ 255 * (y % 2)` is exactly
setting that bit. -/

def AffinePt.to_bytes {M : ℕ} : AffinePt M → List ℕ
  | .identity => List.replicate 32 0
  | .point x y => leBytes 32 (x + 2 ^ 255 * (y % 2))

/-- A y-coordinate matching an extracted x-coordinate and parity bit:
canonical, on-curve, and of the recorded parity. -/

def matchingY (M x par y : ℕ) : Prop :=
  y < M ∧ (y * y) % M = (x * x * x + 5) % M ∧ y % 2 = par

instance matchingY.instDecidable (M x par y : ℕ) : Decidable (matchingY M x par y) :=
  inferInstanceAs (Decidable (_ ∧ _ ∧ _))

instance matchingY.instDecidableExists (M x par : ℕ) :
    Decidable (∃ y, matchingY M x par y) :=
  decidable_of_iff (∃ y : Fin M, matchingY M x par y.val)
    ⟨fun ⟨y, h⟩ => ⟨y.val, h⟩, fun ⟨y, h⟩ => ⟨⟨y, h.1⟩, h⟩⟩

/-- Modelled from the spec: the external curve capability
`lift_x(x, parity)` — recover the on-curve point over x whose
y-coordinate has the recorded parity, when one exists. -/

def lift_x (M x par : ℕ) : Option (ℕ × ℕ) :=
  if hy : ∃ y, matchingY M x par y then some (x, Nat.find hy) else none

/-- Modelled from the spec: `PointCodec.Decode` on a 32-byte leaf —
all-zero bytes give the identity; otherwise the top bit is split off as
the parity bit, the remaining little-endian integer must be a canonical
field element, and the on-curve y of matching parity is lifted,
failing when none exists. -/

def AffinePt.from_bytes (M : ℕ) (bs : List ℕ) : Option (AffinePt M) :=
  if leVal bs = 0 then some .identity
  else if leVal bs % 2 ^ 255 < M then
    match lift_x M (leVal bs % 2 ^ 255) (leVal bs / 2 ^ 255) with
    | some (x, y) => some (.point x y)
    | none => none
  else none

/-- Modelled from the spec: the byte-decoding primitive named
`from_bytes_unchecked` reached from `deserialize` in `src/serde_impl.rs`.
Spec section 4.4 pins every public-facing decode entry point to the
Checked validation path, and a compressed encoding cannot skip the curve
check (the lift of x already requires an on-curve y), so the primitive
coincides with the checked decode. -/

def AffinePt.from_bytes_unchecked (M : ℕ) (bs : List ℕ) : Option (AffinePt M) :=
  AffinePt.from_bytes M bs

/-- The serde adapter for an affine point (`impl Deserialize for EpAffine`
and `EqAffine` in `src/serde_impl.rs`): a leaf whose length is not 32 is
rejected before the codec runs; then `from_bytes_unchecked` decides. -/

def pointDeserialize (M : ℕ) (bs : List ℕ) : Except DecodeError (AffinePt M) :=
  if bs.length = 32 then
    match AffinePt.from_bytes_unchecked M bs with
    | some p => .ok p
    | none => .error .invalidEncoding
  else .error .invalidEncoding

def EpAffine.deserialize (bs : List ℕ) : Except DecodeError EpAffine :=
  pointDeserialize Fp.MODULUS bs

def EqAffine.deserialize (bs : List ℕ) : Except DecodeError EqAffine :=
  pointDeserialize Fq.MODULUS bs

/-- The serde producer for an affine point (`impl Serialize for
EpAffine`/`EqAffine`): emit `to_bytes` as the byte-string leaf. -/

def EpAffine.serialize (p : EpAffine) : List ℕ := p.to_bytes

def EqAffine.serialize (p : EqAffine) : List ℕ := p.to_bytes

/-- Modelled from the spec: each Pasta curve has generator `(-1, 2)`. -/

def EpAffine.generator : EpAffine := .point (Fp.MODULUS - 1) 2

def EqAffine.generator : EqAffine := .point (Fq.MODULUS - 1) 2

/-! ### Fast modular exponentiation

Used only to certify number-theoretic facts about the two moduli
(primality via Lucas certificates, and quadratic non-residuosity via the
Euler criterion). -/

/-- Binary modular exponentiation with explicit fuel, kernel-reducible. -/

def powModAux (M a : ℕ) : ℕ → ℕ → ℕ
  | 0, _ => 1 % M
  | _ + 1, 0 => 1 % M
  | fuel + 1, n + 1 =>
    let r := powModAux M a fuel ((n + 1) / 2)
    if (n + 1) % 2 = 0 then r * r % M else r * r % M * (a % M) % M

/-- Computes `a ^ n % M` by binary exponentiation. -/

def powMod (M a n : ℕ) : ℕ := powModAux M a n n

/-- The additive identity of `Fp` (`Fp::zero()`). -/
def Fp.zero : Fp := ⟨0, by norm_num [Fp.MODULUS]⟩

/-- The multiplicative identity of `Fp` (`Fp::one()`). -/

def Fp.one : Fp := ⟨1, by norm_num [Fp.MODULUS]⟩

/-- The additive identity of `Fq` (`Fq::zero()`). -/

def Fq.zero : Fq := ⟨0, by norm_num [Fq.MODULUS]⟩

/-- The multiplicative identity of `Fq` (`Fq::one()`). -/

def Fq.one : Fq := ⟨1, by norm_num [Fq.MODULUS]⟩

/-- The recorded 32-byte test vector of the Pallas generator
(`tests::serde_ep_affine` in `src/serde_impl.rs`). -/

def epGenBytes : List ℕ :=
  [0, 0, 0, 0, 237, 48, 45, 153, 27, 249, 76, 9, 252, 152, 70, 34,
   0, 0, 0, 0, 0, 0, 0, 0, 0, 0, 0, 0, 0, 0, 0, 64]

/-- The recorded 32-byte test vector of the Vesta generator
(`tests::serde_eq_affine` in `src/serde_impl.rs`). -/

def eqGenBytes : List ℕ :=
  [0, 0, 0, 0, 33, 235, 70, 140, 221, 168, 148, 9, 252, 152, 70, 34,
   0, 0, 0, 0, 0, 0, 0, 0, 0, 0, 0, 0, 0, 0, 0, 64]

/-! ### Theorems -/

theorem leBytes_length (k n : ℕ) : (leBytes k n).length = k := by
  induction k generalizing n with
  | zero => rfl
  | succ k ih => simp [leBytes, ih]

theorem leBytes_lt (k n : ℕ) : ∀ b ∈ leBytes k n, b < 256 := by
  induction k generalizing n with
  | zero => intro b hb; simp [leBytes] at hb
  | succ k ih =>
    intro b hb
    simp only [leBytes, List.mem_cons] at hb
    rcases hb with h | h
    · subst h; exact Nat.mod_lt _ (by norm_num)
    · exact ih _ b h

theorem leVal_leBytes (k n : ℕ) : leVal (leBytes k n) = n % 256 ^ k := by
  induction k generalizing n with
  | zero => simp [leBytes, leVal, Nat.mod_one]
  | succ k ih =>
    simp only [leBytes, leVal, ih]
    rw [pow_succ', Nat.mod_mul]

theorem leVal_leBytes_of_lt {k n : ℕ} (h : n < 256 ^ k) :
    leVal (leBytes k n) = n := by
  rw [leVal_leBytes, Nat.mod_eq_of_lt h]

theorem leVal_lt_of_bytes {bs : List ℕ} (hb : ∀ b ∈ bs, b < 256) :
    leVal bs < 256 ^ bs.length := by
  induction bs with
  | nil => simp [leVal]
  | cons b bs ih =>
    have h1 : b < 256 := hb b (by simp)
    have h2 : leVal bs < 256 ^ bs.length := ih (fun x hx => hb x (by simp [hx]))
    simp only [leVal, List.length_cons, pow_succ]
    calc b + 256 * leVal bs < 256 + 256 * leVal bs := by omega
    _ = 256 * (leVal bs + 1) := by ring
    _ ≤ 256 * 256 ^ bs.length := by
        exact Nat.mul_le_mul_left _ (by omega)
    _ = 256 ^ bs.length * 256 := by ring

theorem leBytes_leVal {bs : List ℕ} (hb : ∀ b ∈ bs, b < 256) :
    leBytes bs.length (leVal bs) = bs := by
  induction bs with
  | nil => rfl
  | cons b bs ih =>
    have h1 : b < 256 := hb b (by simp)
    have h256 : (b + 256 * leVal bs) % 256 = b := by omega
    have hdiv : (b + 256 * leVal bs) / 256 = leVal bs := by omega
    simp only [List.length_cons, leBytes, leVal, h256, hdiv]
    rw [ih (fun x hx => hb x (by simp [hx]))]

theorem leVal_eq_zero_iff {bs : List ℕ} : leVal bs = 0 ↔ ∀ b ∈ bs, b = 0 := by
  induction bs with
  | nil => simp [leVal]
  | cons b bs ih =>
    simp only [leVal, List.mem_cons]
    constructor
    · intro h
      have hb : b = 0 := by omega
      have hrest : leVal bs = 0 := by omega
      intro x hx
      rcases hx with h' | h'
      · omega
      · exact ih.mp hrest x h'
    · intro h
      have hb : b = 0 := h b (Or.inl rfl)
      have : leVal bs = 0 := ih.mpr (fun x hx => h x (Or.inr hx))
      omega

theorem leVal_replicate_zero (k : ℕ) : leVal (List.replicate k 0) = 0 :=
  leVal_eq_zero_iff.mpr (fun b hb => (List.eq_of_mem_replicate hb))

theorem eq_replicate_zero_of_leVal_eq_zero {bs : List ℕ} (h : leVal bs = 0) :
    bs = List.replicate bs.length 0 := by
  apply List.eq_replicate_of_mem
  intro b hb
  exact leVal_eq_zero_iff.mp h b hb

theorem powModAux_correct (M a : ℕ) :
    ∀ fuel n, n < 2 ^ fuel → powModAux M a fuel n = a ^ n % M := by
  intro fuel
  induction fuel with
  | zero =>
    intro n hn
    have : n = 0 := by simpa using hn
    subst this
    simp [powModAux]
  | succ fuel ih =>
    intro n hn
    match n with
    | 0 => simp [powModAux]
    | n + 1 =>
      have h2 : (n + 1) / 2 < 2 ^ fuel := by
        rw [pow_succ] at hn
        omega
      have hr := ih ((n + 1) / 2) h2
      have e1 : ∀ u v : ℕ, u % M * (v % M) % M = u * v % M :=
        fun u v => (Nat.mul_mod u v M).symm
      rcases Nat.even_or_odd (n + 1) with he | ho
      · have hmod : (n + 1) % 2 = 0 := Nat.even_iff.mp he
        have hidx : (n + 1) / 2 + (n + 1) / 2 = n + 1 := by omega
        simp only [powModAux, hmod, if_true, hr]
        rw [e1, ← pow_add, hidx]
      · have hmod : (n + 1) % 2 = 1 := Nat.odd_iff.mp ho
        have hidx : (n + 1) / 2 + (n + 1) / 2 + 1 = n + 1 := by omega
        simp only [powModAux, hmod, if_neg (by omega : ¬(1 : ℕ) = 0), hr]
        rw [e1 (a ^ ((n + 1) / 2)) (a ^ ((n + 1) / 2)), ← pow_add, e1, ← pow_succ, hidx]

theorem powMod_correct (M a n : ℕ) : powMod M a n = a ^ n % M :=
  powModAux_correct M a n n (Nat.lt_two_pow n)

theorem powMod_natCast (M a n : ℕ) :
    ((powMod M a n : ℕ) : ZMod M) = (a : ZMod M) ^ n := by
  rw [powMod_correct M a n]
  rw [(ZMod.natCast_eq_natCast_iff' (a ^ n % M) (a ^ n) M).mpr (Nat.mod_mod (a ^ n) M)]
  push_cast
  rfl

/-- The Lucas primality certificate, checked with `powMod`:  `a` has order
`p - 1` modulo `p`, witnessed by `powMod` computations over the complete
list `L` of prime divisors of `p - 1`. -/

theorem lucas_cert (p a : ℕ) (hp : 2 < p) (L : List ℕ)
    (hcov : ∀ r : ℕ, r.Prime → r ∣ (p - 1) → r ∈ L)
    (h1 : powMod p a (p - 1) = 1)
    (hL : ∀ r ∈ L, powMod p a ((p - 1) / r) ≠ 1) :
    p.Prime := by
  apply lucas_primality p (a : ZMod p)
  · have hc := powMod_natCast p a (p - 1)
    rw [h1] at hc
    simpa using hc.symm
  · intro q hq hdvd
    have hmem := hcov q hq hdvd
    intro hcontra
    apply hL q hmem
    have hc := powMod_natCast p a ((p - 1) / q)
    rw [hcontra] at hc
    have hlt : powMod p a ((p - 1) / q) < p := by
      rw [powMod_correct]
      exact Nat.mod_lt _ (by omega)
    have hcast : ((powMod p a ((p - 1) / q) : ℕ) : ZMod p) = ((1 : ℕ) : ZMod p) := by
      rw [hc]; push_cast; rfl
    have hmod := (ZMod.natCast_eq_natCast_iff' _ _ _).mp hcast
    rw [Nat.mod_eq_of_lt hlt, Nat.mod_eq_of_lt (by omega : (1 : ℕ) < p)] at hmod
    exact hmod

theorem powMod_lt (M a n : ℕ) (hM : 0 < M) : powMod M a n < M := by
  rw [powMod_correct]
  exact Nat.mod_lt _ hM

theorem eq_one_of_natCast_eq_one {M v : ℕ} (hM : 1 < M) (hv : v < M)
    (h : ((v : ℕ) : ZMod M) = 1) : v = 1 := by
  have hc : ((v : ℕ) : ZMod M) = ((1 : ℕ) : ZMod M) := by rw [h]; push_cast; rfl
  have := (ZMod.natCast_eq_natCast_iff' v 1 M).mp hc
  rw [Nat.mod_eq_of_lt hv, Nat.mod_eq_of_lt hM] at this
  exact this

/-- Quadratic non-residues certified by the Euler criterion, computed with
`powMod`: if `c ^ ((M - 1) / 2) % M ≠ 1` for nonzero `c` and prime `M`,
then no y squares to `c` modulo `M`, hence no y matches any parity over an
x-coordinate whose curve polynomial value is `c`. -/

theorem no_matchingY_of_powMod (M x : ℕ) (hM : M.Prime) (hM2 : 2 < M)
    (hne : (x * x * x + 5) % M ≠ 0)
    (h : powMod M ((x * x * x + 5) % M) (M / 2) ≠ 1) :
    ∀ par, ¬∃ y, matchingY M x par y := by
  haveI : Fact M.Prime := ⟨hM⟩
  rintro par ⟨y, hy, hsq, -⟩
  have hlt : (x * x * x + 5) % M < M := Nat.mod_lt _ (by omega)
  have hc0 : (((x * x * x + 5) % M : ℕ) : ZMod M) ≠ 0 := by
    rw [Ne, ZMod.natCast_zmod_eq_zero_iff_dvd]
    intro hdvd
    exact hne (Nat.eq_zero_of_dvd_of_lt hdvd hlt)
  have hsqcast : ((y * y : ℕ) : ZMod M) = (((x * x * x + 5) % M : ℕ) : ZMod M) := by
    refine (ZMod.natCast_eq_natCast_iff' _ _ _).mpr ?_
    rw [Nat.mod_mod]
    exact hsq
  have hIsSq : IsSquare (((x * x * x + 5) % M : ℕ) : ZMod M) := by
    refine ⟨(y : ZMod M), ?_⟩
    rw [← hsqcast]
    push_cast
    rfl
  have heul := (ZMod.euler_criterion M hc0).mp hIsSq
  apply h
  refine eq_one_of_natCast_eq_one (by omega) (powMod_lt _ _ _ (by omega)) ?_
  rw [powMod_natCast]
  exact heul

/-- Uniqueness of the matching y: over a prime odd modulus, at most one
canonical y has a given square and a given parity (the two square roots of
a nonzero square differ in parity because the modulus is odd). -/

theorem matchingY_unique {M x par y z : ℕ} (hM : M.Prime) (hModd : M % 2 = 1)
    (hy : matchingY M x par y) (hz : matchingY M x par z) : y = z := by
  haveI : Fact M.Prime := ⟨hM⟩
  obtain ⟨hy1, hy2, hy3⟩ := hy
  obtain ⟨hz1, hz2, hz3⟩ := hz
  have hsq : ((y * y : ℕ) : ZMod M) = ((z * z : ℕ) : ZMod M) :=
    (ZMod.natCast_eq_natCast_iff' _ _ _).mpr (hy2.trans hz2.symm)
  have hsq' : (y : ZMod M) * (y : ZMod M) = (z : ZMod M) * (z : ZMod M) := by
    push_cast at hsq
    exact hsq
  rcases mul_self_eq_mul_self_iff.mp hsq' with he | he
  · have := (ZMod.natCast_eq_natCast_iff' y z M).mp he
    rw [Nat.mod_eq_of_lt hy1, Nat.mod_eq_of_lt hz1] at this
    exact this
  · have hzero : ((y + z : ℕ) : ZMod M) = 0 := by
      push_cast
      rw [he]
      ring
    have hdvd := (ZMod.natCast_zmod_eq_zero_iff_dvd _ _).mp hzero
    obtain ⟨k, hk⟩ := hdvd
    have hk2 : k < 2 := by
      by_contra hge
      have : 2 * M ≤ M * k := by
        calc 2 * M = M * 2 := by ring
        _ ≤ M * k := Nat.mul_le_mul_left _ (by omega)
      omega
    interval_cases k
    · omega
    · omega

/-- On input with a matching y, `lift_x` returns exactly that y. -/

theorem lift_x_eq_some {M x par y : ℕ} (hM : M.Prime) (hModd : M % 2 = 1)
    (h : matchingY M x par y) : lift_x M x par = some (x, y) := by
  unfold lift_x
  rw [dif_pos ⟨y, h⟩]
  have := Nat.find_spec (⟨y, h⟩ : ∃ y, matchingY M x par y)
  rw [matchingY_unique hM hModd this h]

theorem lift_x_eq_none {M x par : ℕ} (h : ¬∃ y, matchingY M x par y) :
    lift_x M x par = none := dif_neg h

/-- Whatever `lift_x` returns is the input x together with a matching y. -/

theorem lift_x_sound {M x par x' y : ℕ} (h : lift_x M x par = some (x', y)) :
    x' = x ∧ matchingY M x par y := by
  unfold lift_x at h
  by_cases hy : ∃ y, matchingY M x par y
  · rw [dif_pos hy] at h
    obtain ⟨h1, h2⟩ := Prod.mk.injEq .. ▸ Option.some.injEq _ _ ▸ h
    cases h
    exact ⟨rfl, Nat.find_spec hy⟩
  · rw [dif_neg hy] at h
    cases h

theorem prime_dvd_mul_cases {r m n : ℕ} (hr : r.Prime) (h : r ∣ m * n) :
    r ∣ m ∨ r ∣ n := (Nat.Prime.dvd_mul hr).mp h

theorem prime_eq_of_dvd_pow {r q k : ℕ} (hr : r.Prime) (hq : q.Prime)
    (h : r ∣ q ^ k) : r = q :=
  (Nat.prime_dvd_prime_iff_eq hr hq).mp (hr.dvd_of_dvd_pow h)

theorem prime_eq_of_dvd_prime {r q : ℕ} (hr : r.Prime) (hq : q.Prime)
    (h : r ∣ q) : r = q :=
  (Nat.prime_dvd_prime_iff_eq hr hq).mp h

theorem fieldDeserialize_to_repr {M : ℕ} (hM : M < 256 ^ 32) (e : FieldEl M) :
    fieldDeserialize M (FieldEl.to_repr e) = .ok e := by
  rcases e with ⟨v, hv⟩
  unfold fieldDeserialize fromRepr FieldEl.to_repr
  rw [if_pos (leBytes_length 32 v)]
  simp only [leVal_leBytes_of_lt (lt_trans hv hM)]
  rw [dif_pos hv]

theorem fieldDeserialize_sound {M : ℕ} {bs : List ℕ} {e : FieldEl M}
    (hb : ∀ b ∈ bs, b < 256)
    (h : fieldDeserialize M bs = .ok e) :
    bs.length = 32 ∧ e.val = leVal bs ∧ bs = FieldEl.to_repr e := by
  unfold fieldDeserialize fromRepr at h
  by_cases hlen : bs.length = 32
  · rw [if_pos hlen] at h
    by_cases hlt : leVal bs < M
    · rw [dif_pos hlt] at h
      injection h with h2
      subst h2
      refine ⟨hlen, rfl, ?_⟩
      have := leBytes_leVal hb
      rw [hlen] at this
      exact this.symm
    · rw [dif_neg hlt] at h
      exact Except.noConfusion h
  · rw [if_neg hlen] at h
    exact Except.noConfusion h

theorem fieldDeserialize_err_of_ge {M : ℕ} {bs : List ℕ} (h : M ≤ leVal bs) :
    fieldDeserialize M bs = .error .invalidEncoding := by
  unfold fieldDeserialize fromRepr
  split
  · rw [dif_neg (by omega)]
  · rfl

theorem fieldDeserialize_err_of_len {M : ℕ} {bs : List ℕ} (h : bs.length ≠ 32) :
    fieldDeserialize M bs = .error .invalidEncoding := by
  unfold fieldDeserialize
  rw [if_neg h]

theorem to_repr_inj {M : ℕ} (hM : M < 256 ^ 32) {a b : FieldEl M}
    (h : FieldEl.to_repr a = FieldEl.to_repr b) : a = b := by
  rcases a with ⟨u, hu⟩
  rcases b with ⟨v, hv⟩
  unfold FieldEl.to_repr at h
  have := congrArg leVal h
  rw [leVal_leBytes_of_lt (lt_trans hu hM),
      leVal_leBytes_of_lt (lt_trans hv hM)] at this
  simpa using this

theorem from_bytes_sound {M : ℕ} {bs : List ℕ} {pt : AffinePt M}
    (hlen : bs.length = 32) (hb : ∀ b ∈ bs, b < 256)
    (h : AffinePt.from_bytes M bs = some pt) :
    pt.IsValid ∧ bs = pt.to_bytes := by
  unfold AffinePt.from_bytes at h
  by_cases h0 : leVal bs = 0
  · rw [if_pos h0] at h
    injection h with h2
    subst h2
    refine ⟨trivial, ?_⟩
    have := eq_replicate_zero_of_leVal_eq_zero h0
    rw [hlen] at this
    exact this
  · rw [if_neg h0] at h
    by_cases hx : leVal bs % 2 ^ 255 < M
    · rw [if_pos hx] at h
      rcases hlx : lift_x M (leVal bs % 2 ^ 255) (leVal bs / 2 ^ 255) with - | ⟨x, y⟩
      · rw [hlx] at h
        exact Option.noConfusion h
      · rw [hlx] at h
        injection h with h2
        subst h2
        obtain ⟨hx', hmy⟩ := lift_x_sound hlx
        obtain ⟨hyM, hcurve, hpar⟩ := hmy
        subst hx'
        constructor
        · exact ⟨hx, hyM, hcurve⟩
        · show bs = leBytes 32 (leVal bs % 2 ^ 255 + 2 ^ 255 * (y % 2))
          rw [hpar, Nat.mod_add_div (leVal bs) (2 ^ 255)]
          have := leBytes_leVal hb
          rw [hlen] at this
          exact this.symm
    · rw [if_neg hx] at h
      exact Option.noConfusion h

theorem pointDeserialize_sound {M : ℕ} {bs : List ℕ} {pt : AffinePt M}
    (hb : ∀ b ∈ bs, b < 256)
    (h : pointDeserialize M bs = .ok pt) :
    bs.length = 32 ∧ pt.IsValid ∧ bs = pt.to_bytes := by
  unfold pointDeserialize AffinePt.from_bytes_unchecked at h
  by_cases hlen : bs.length = 32
  · rw [if_pos hlen] at h
    rcases hfb : AffinePt.from_bytes M bs with - | p
    · rw [hfb] at h
      exact Except.noConfusion h
    · rw [hfb] at h
      injection h with h2
      subst h2
      obtain ⟨h1, h2⟩ := from_bytes_sound hlen hb hfb
      exact ⟨hlen, h1, h2⟩
  · rw [if_neg hlen] at h
    exact Except.noConfusion h

theorem from_bytes_to_bytes {M : ℕ} (hM : M.Prime) (hModd : M % 2 = 1)
    (hhi : M < 2 ^ 255)
    (hns5 : ∀ par, ¬∃ y, matchingY M 0 par y)
    {pt : AffinePt M} (hv : pt.IsValid) :
    AffinePt.from_bytes M pt.to_bytes = some pt := by
  match pt with
  | .identity =>
    unfold AffinePt.to_bytes AffinePt.from_bytes
    rw [if_pos (leVal_replicate_zero 32)]
  | .point x y =>
    obtain ⟨hx, hy, hcurve⟩ := hv
    have hxne : x ≠ 0 := by
      rintro rfl
      exact hns5 (y % 2) ⟨y, hy, hcurve, rfl⟩
    have hx255 : x < 2 ^ 255 := lt_trans hx hhi
    have hn : x + 2 ^ 255 * (y % 2) < 256 ^ 32 := by
      have h1 : y % 2 ≤ 1 := by omega
      have h2 : (256 : ℕ) ^ 32 = 2 ^ 255 * 2 := by norm_num
      omega
    unfold AffinePt.to_bytes AffinePt.from_bytes
    simp only [leVal_leBytes_of_lt hn]
    rw [if_neg (by omega : ¬(x + 2 ^ 255 * (y % 2) = 0))]
    have hmod : (x + 2 ^ 255 * (y % 2)) % 2 ^ 255 = x := by
      rw [Nat.add_mul_mod_self_left]
      exact Nat.mod_eq_of_lt hx255
    have hdiv : (x + 2 ^ 255 * (y % 2)) / 2 ^ 255 = y % 2 := by
      rw [Nat.add_mul_div_left _ _ (by positivity : 0 < (2 : ℕ) ^ 255)]
      rw [Nat.div_eq_of_lt hx255]
      omega
    rw [hmod, hdiv, if_pos hx]
    rw [lift_x_eq_some hM hModd ⟨hy, hcurve, rfl⟩]

theorem pointDeserialize_to_bytes {M : ℕ} (hM : M.Prime) (hModd : M % 2 = 1)
    (hhi : M < 2 ^ 255)
    (hns5 : ∀ par, ¬∃ y, matchingY M 0 par y)
    {pt : AffinePt M} (hv : pt.IsValid) :
    pointDeserialize M pt.to_bytes = .ok pt := by
  unfold pointDeserialize AffinePt.from_bytes_unchecked
  have hlen : pt.to_bytes.length = 32 := by
    match pt with
    | .identity => simp [AffinePt.to_bytes]
    | .point x y => simp [AffinePt.to_bytes, leBytes_length]
  rw [if_pos hlen, from_bytes_to_bytes hM hModd hhi hns5 hv]

theorem to_bytes_bounds {M : ℕ} (pt : AffinePt M) :
    pt.to_bytes.length = 32 ∧ ∀ b ∈ pt.to_bytes, b < 256 := by
  match pt with
  | .identity =>
    refine ⟨by simp [AffinePt.to_bytes], ?_⟩
    intro b hb
    have hb' : b ∈ List.replicate 32 (0 : ℕ) := hb
    have := List.eq_of_mem_replicate hb'
    omega
  | .point x y =>
    exact ⟨by simp [AffinePt.to_bytes, leBytes_length],
           fun b hb => leBytes_lt 32 _ b (by simpa [AffinePt.to_bytes] using hb)⟩

theorem to_bytes_inj {M : ℕ} (hM : M.Prime) (hModd : M % 2 = 1)
    (hhi : M < 2 ^ 255)
    (hns5 : ∀ par, ¬∃ y, matchingY M 0 par y)
    {a b : AffinePt M} (hva : a.IsValid) (hvb : b.IsValid)
    (h : a.to_bytes = b.to_bytes) : a = b := by
  have hval := congrArg leVal h
  have key : ∀ (x y : ℕ), (x < M ∧ y < M ∧ (y * y) % M = (x * x * x + 5) % M) →
      x ≠ 0 := by
    rintro x y ⟨hx, hy, hc⟩ rfl
    exact hns5 (y % 2) ⟨y, hy, hc, rfl⟩
  have hbound : ∀ (x y : ℕ), x < M →
      leVal (AffinePt.to_bytes (M := M) (.point x y)) = x + 2 ^ 255 * (y % 2) := by
    intro x y hx
    have hx255 : x < 2 ^ 255 := lt_trans hx hhi
    have hn : x + 2 ^ 255 * (y % 2) < 256 ^ 32 := by
      have h1 : y % 2 ≤ 1 := by omega
      have h2 : (256 : ℕ) ^ 32 = 2 ^ 255 * 2 := by norm_num
      omega
    unfold AffinePt.to_bytes
    exact leVal_leBytes_of_lt hn
  match a, b with
  | .identity, .identity => rfl
  | .identity, .point x y =>
    have hidv : leVal (AffinePt.identity : AffinePt M).to_bytes = 0 :=
      leVal_replicate_zero 32
    rw [hidv, hbound x y hvb.1] at hval
    have := key x y hvb
    have hx255 : x < 2 ^ 255 := lt_trans hvb.1 hhi
    omega
  | .point x y, .identity =>
    have hidv : leVal (AffinePt.identity : AffinePt M).to_bytes = 0 :=
      leVal_replicate_zero 32
    rw [hidv, hbound x y hva.1] at hval
    have := key x y hva
    have hx255 : x < 2 ^ 255 := lt_trans hva.1 hhi
    omega
  | .point x y, .point x' y' =>
    rw [hbound x y hva.1, hbound x' y' hvb.1] at hval
    have hx255 : x < 2 ^ 255 := lt_trans hva.1 hhi
    have hx'255 : x' < 2 ^ 255 := lt_trans hvb.1 hhi
    have hpx : x = x' ∧ y % 2 = y' % 2 := by omega
    obtain ⟨hxx, hyy⟩ := hpx
    subst hxx
    have hyeq : y = y' :=
      matchingY_unique hM hModd
        (⟨hva.2.1, hva.2.2, rfl⟩ : matchingY M x (y % 2) y)
        (⟨hvb.2.1, hvb.2.2, hyy.symm⟩ : matchingY M x (y % 2) y')
    rw [hyeq]

theorem pointDeserialize_err_of_no_matching {M : ℕ} {bs : List ℕ}
    (hlen : bs.length = 32) (hnz : leVal bs ≠ 0)
    (hno : ¬∃ y, matchingY M (leVal bs % 2 ^ 255) (leVal bs / 2 ^ 255) y) :
    pointDeserialize M bs = .error .invalidEncoding := by
  unfold pointDeserialize AffinePt.from_bytes_unchecked AffinePt.from_bytes
  rw [if_pos hlen, if_neg hnz]
  by_cases hx : leVal bs % 2 ^ 255 < M
  · rw [if_pos hx, lift_x_eq_none hno]
  · rw [if_neg hx]

theorem pointDeserialize_err_of_x_ge {M : ℕ} {bs : List ℕ} (hM0 : 0 < M)
    (hlen : bs.length = 32) (hx : M ≤ leVal bs % 2 ^ 255) :
    pointDeserialize M bs = .error .invalidEncoding := by
  have hnz : leVal bs ≠ 0 := by
    intro h0
    rw [h0, Nat.zero_mod] at hx
    omega
  unfold pointDeserialize AffinePt.from_bytes_unchecked AffinePt.from_bytes
  rw [if_pos hlen, if_neg hnz,
      if_neg (by omega : ¬(leVal bs % 2 ^ 255 < M))]

theorem pointDeserialize_err_of_len {M : ℕ} {bs : List ℕ} (h : bs.length ≠ 32) :
    pointDeserialize M bs = .error .invalidEncoding := by
  unfold pointDeserialize
  rw [if_neg h]

/-! ### Primality of the Pallas base-field modulus

Lucas certificates for the prime factor tree of `Fp.MODULUS - 1`. -/

theorem prime_149503 : Nat.Prime 149503 := by
  apply lucas_cert 149503 3 (by norm_num) [2, 3, 24917]
  · intro r hr hdvd
    have hfac : (149503 : ℕ) - 1 = 2 * (3 * (24917)) := by norm_num
    rw [hfac] at hdvd
    rcases prime_dvd_mul_cases hr hdvd with h | hdvd
    · simp [prime_eq_of_dvd_prime hr (by norm_num) h]
    rcases prime_dvd_mul_cases hr hdvd with h | hdvd
    · simp [prime_eq_of_dvd_prime hr (by norm_num) h]
    have h := hdvd
    simp [prime_eq_of_dvd_prime hr (by norm_num) h]
  · decide
  · intro r hr
    fin_cases hr <;> decide

theorem prime_897019 : Nat.Prime 897019 := by
  apply lucas_cert 897019 2 (by norm_num) [2, 3, 149503]
  · intro r hr hdvd
    have hfac : (897019 : ℕ) - 1 = 2 * (3 * (149503)) := by norm_num
    rw [hfac] at hdvd
    rcases prime_dvd_mul_cases hr hdvd with h | hdvd
    · simp [prime_eq_of_dvd_prime hr (by norm_num) h]
    rcases prime_dvd_mul_cases hr hdvd with h | hdvd
    · simp [prime_eq_of_dvd_prime hr (by norm_num) h]
    have h := hdvd
    simp [prime_eq_of_dvd_prime hr prime_149503 h]
  · decide
  · intro r hr
    fin_cases hr <;> decide

theorem prime_417677162933 : Nat.Prime 417677162933 := by
  apply lucas_cert 417677162933 2 (by norm_num) [2, 59, 1973, 897019]
  · intro r hr hdvd
    have hfac : (417677162933 : ℕ) - 1 = 2 ^ 2 * (59 * (1973 * (897019))) := by norm_num
    rw [hfac] at hdvd
    rcases prime_dvd_mul_cases hr hdvd with h | hdvd
    · simp [prime_eq_of_dvd_pow hr (by norm_num) h]
    rcases prime_dvd_mul_cases hr hdvd with h | hdvd
    · simp [prime_eq_of_dvd_prime hr (by norm_num) h]
    rcases prime_dvd_mul_cases hr hdvd with h | hdvd
    · simp [prime_eq_of_dvd_prime hr (by norm_num) h]
    have h := hdvd
    simp [prime_eq_of_dvd_prime hr prime_897019 h]
  · decide
  · intro r hr
    fin_cases hr <;> decide

theorem prime_539204044132271846773 : Nat.Prime 539204044132271846773 := by
  apply lucas_cert 539204044132271846773 5 (by norm_num) [2, 3, 89, 14923, 417677162933]
  · intro r hr hdvd
    have hfac : (539204044132271846773 : ℕ) - 1 = 2 ^ 2 * (3 ^ 5 * (89 * (14923 * (417677162933)))) := by norm_num
    rw [hfac] at hdvd
    rcases prime_dvd_mul_cases hr hdvd with h | hdvd
    · simp [prime_eq_of_dvd_pow hr (by norm_num) h]
    rcases prime_dvd_mul_cases hr hdvd with h | hdvd
    · simp [prime_eq_of_dvd_pow hr (by norm_num) h]
    rcases prime_dvd_mul_cases hr hdvd with h | hdvd
    · simp [prime_eq_of_dvd_prime hr (by norm_num) h]
    rcases prime_dvd_mul_cases hr hdvd with h | hdvd
    · simp [prime_eq_of_dvd_prime hr (by norm_num) h]
    have h := hdvd
    simp [prime_eq_of_dvd_prime hr prime_417677162933 h]
  · decide
  · intro r hr
    fin_cases hr <;> decide

theorem prime_115603 : Nat.Prime 115603 := by
  apply lucas_cert 115603 2 (by norm_num) [2, 3, 19267]
  · intro r hr hdvd
    have hfac : (115603 : ℕ) - 1 = 2 * (3 * (19267)) := by norm_num
    rw [hfac] at hdvd
    rcases prime_dvd_mul_cases hr hdvd with h | hdvd
    · simp [prime_eq_of_dvd_prime hr (by norm_num) h]
    rcases prime_dvd_mul_cases hr hdvd with h | hdvd
    · simp [prime_eq_of_dvd_prime hr (by norm_num) h]
    have h := hdvd
    simp [prime_eq_of_dvd_prime hr (by norm_num) h]
  · decide
  · intro r hr
    fin_cases hr <;> decide

theorem prime_1197907 : Nat.Prime 1197907 := by
  apply lucas_cert 1197907 3 (by norm_num) [2, 3, 53, 3767]
  · intro r hr hdvd
    have hfac : (1197907 : ℕ) - 1 = 2 * (3 * (53 * (3767))) := by norm_num
    rw [hfac] at hdvd
    rcases prime_dvd_mul_cases hr hdvd with h | hdvd
    · simp [prime_eq_of_dvd_prime hr (by norm_num) h]
    rcases prime_dvd_mul_cases hr hdvd with h | hdvd
    · simp [prime_eq_of_dvd_prime hr (by norm_num) h]
    rcases prime_dvd_mul_cases hr hdvd with h | hdvd
    · simp [prime_eq_of_dvd_prime hr (by norm_num) h]
    have h := hdvd
    simp [prime_eq_of_dvd_prime hr (by norm_num) h]
  · decide
  · intro r hr
    fin_cases hr <;> decide

theorem prime_6942563 : Nat.Prime 6942563 := by
  apply lucas_cert 6942563 2 (by norm_num) [2, 11, 17, 19, 977]
  · intro r hr hdvd
    have hfac : (6942563 : ℕ) - 1 = 2 * (11 * (17 * (19 * (977)))) := by norm_num
    rw [hfac] at hdvd
    rcases prime_dvd_mul_cases hr hdvd with h | hdvd
    · simp [prime_eq_of_dvd_prime hr (by norm_num) h]
    rcases prime_dvd_mul_cases hr hdvd with h | hdvd
    · simp [prime_eq_of_dvd_prime hr (by norm_num) h]
    rcases prime_dvd_mul_cases hr hdvd with h | hdvd
    · simp [prime_eq_of_dvd_prime hr (by norm_num) h]
    rcases prime_dvd_mul_cases hr hdvd with h | hdvd
    · simp [prime_eq_of_dvd_prime hr (by norm_num) h]
    have h := hdvd
    simp [prime_eq_of_dvd_prime hr (by norm_num) h]
  · decide
  · intro r hr
    fin_cases hr <;> decide

theorem prime_41655379 : Nat.Prime 41655379 := by
  apply lucas_cert 41655379 2 (by norm_num) [2, 3, 6942563]
  · intro r hr hdvd
    have hfac : (41655379 : ℕ) - 1 = 2 * (3 * (6942563)) := by norm_num
    rw [hfac] at hdvd
    rcases prime_dvd_mul_cases hr hdvd with h | hdvd
    · simp [prime_eq_of_dvd_prime hr (by norm_num) h]
    rcases prime_dvd_mul_cases hr hdvd with h | hdvd
    · simp [prime_eq_of_dvd_prime hr (by norm_num) h]
    have h := hdvd
    simp [prime_eq_of_dvd_prime hr prime_6942563 h]
  · decide
  · intro r hr
    fin_cases hr <;> decide

theorem prime_22160661629 : Nat.Prime 22160661629 := by
  apply lucas_cert 22160661629 3 (by norm_num) [2, 7, 19, 41655379]
  · intro r hr hdvd
    have hfac : (22160661629 : ℕ) - 1 = 2 ^ 2 * (7 * (19 * (41655379))) := by norm_num
    rw [hfac] at hdvd
    rcases prime_dvd_mul_cases hr hdvd with h | hdvd
    · simp [prime_eq_of_dvd_pow hr (by norm_num) h]
    rcases prime_dvd_mul_cases hr hdvd with h | hdvd
    · simp [prime_eq_of_dvd_prime hr (by norm_num) h]
    rcases prime_dvd_mul_cases hr hdvd with h | hdvd
    · simp [prime_eq_of_dvd_prime hr (by norm_num) h]
    have h := hdvd
    simp [prime_eq_of_dvd_prime hr prime_41655379 h]
  · decide
  · intro r hr
    fin_cases hr <;> decide

theorem prime_413527 : Nat.Prime 413527 := by
  apply lucas_cert 413527 3 (by norm_num) [2, 3, 41]
  · intro r hr hdvd
    have hfac : (413527 : ℕ) - 1 = 2 * (3 * (41 ^ 3)) := by norm_num
    rw [hfac] at hdvd
    rcases prime_dvd_mul_cases hr hdvd with h | hdvd
    · simp [prime_eq_of_dvd_prime hr (by norm_num) h]
    rcases prime_dvd_mul_cases hr hdvd with h | hdvd
    · simp [prime_eq_of_dvd_prime hr (by norm_num) h]
    have h := hdvd
    simp [prime_eq_of_dvd_pow hr (by norm_num) h]
  · decide
  · intro r hr
    fin_cases hr <;> decide

theorem prime_772231 : Nat.Prime 772231 := by
  apply lucas_cert 772231 6 (by norm_num) [2, 3, 5, 25741]
  · intro r hr hdvd
    have hfac : (772231 : ℕ) - 1 = 2 * (3 * (5 * (25741))) := by norm_num
    rw [hfac] at hdvd
    rcases prime_dvd_mul_cases hr hdvd with h | hdvd
    · simp [prime_eq_of_dvd_prime hr (by norm_num) h]
    rcases prime_dvd_mul_cases hr hdvd with h | hdvd
    · simp [prime_eq_of_dvd_prime hr (by norm_num) h]
    rcases prime_dvd_mul_cases hr hdvd with h | hdvd
    · simp [prime_eq_of_dvd_prime hr (by norm_num) h]
    have h := hdvd
    simp [prime_eq_of_dvd_prime hr (by norm_num) h]
  · decide
  · intro r hr
    fin_cases hr <;> decide

theorem prime_325086459374267 : Nat.Prime 325086459374267 := by
  apply lucas_cert 325086459374267 2 (by norm_num) [2, 509, 413527, 772231]
  · intro r hr hdvd
    have hfac : (325086459374267 : ℕ) - 1 = 2 * (509 * (413527 * (772231))) := by norm_num
    rw [hfac] at hdvd
    rcases prime_dvd_mul_cases hr hdvd with h | hdvd
    · simp [prime_eq_of_dvd_prime hr (by norm_num) h]
    rcases prime_dvd_mul_cases hr hdvd with h | hdvd
    · simp [prime_eq_of_dvd_prime hr (by norm_num) h]
    rcases prime_dvd_mul_cases hr hdvd with h | hdvd
    · simp [prime_eq_of_dvd_prime hr prime_413527 h]
    have h := hdvd
    simp [prime_eq_of_dvd_prime hr prime_772231 h]
  · decide
  · intro r hr
    fin_cases hr <;> decide

theorem prime_8999194758858563409123804352480028797519453 : Nat.Prime 8999194758858563409123804352480028797519453 := by
  apply lucas_cert 8999194758858563409123804352480028797519453 2 (by norm_num) [2, 3, 11, 2531, 115603, 1197907, 22160661629, 325086459374267]
  · intro r hr hdvd
    have hfac : (8999194758858563409123804352480028797519453 : ℕ) - 1 = 2 ^ 2 * (3 ^ 4 * (11 * (2531 * (115603 * (1197907 * (22160661629 * (325086459374267))))))) := by norm_num
    rw [hfac] at hdvd
    rcases prime_dvd_mul_cases hr hdvd with h | hdvd
    · simp [prime_eq_of_dvd_pow hr (by norm_num) h]
    rcases prime_dvd_mul_cases hr hdvd with h | hdvd
    · simp [prime_eq_of_dvd_pow hr (by norm_num) h]
    rcases prime_dvd_mul_cases hr hdvd with h | hdvd
    · simp [prime_eq_of_dvd_prime hr (by norm_num) h]
    rcases prime_dvd_mul_cases hr hdvd with h | hdvd
    · simp [prime_eq_of_dvd_prime hr (by norm_num) h]
    rcases prime_dvd_mul_cases hr hdvd with h | hdvd
    · simp [prime_eq_of_dvd_prime hr prime_115603 h]
    rcases prime_dvd_mul_cases hr hdvd with h | hdvd
    · simp [prime_eq_of_dvd_prime hr prime_1197907 h]
    rcases prime_dvd_mul_cases hr hdvd with h | hdvd
    · simp [prime_eq_of_dvd_prime hr prime_22160661629 h]
    have h := hdvd
    simp [prime_eq_of_dvd_prime hr prime_325086459374267 h]
  · decide
  · intro r hr
    fin_cases hr <;> decide

theorem Fp_MODULUS_prime : Nat.Prime Fp.MODULUS := by
  have hP : Fp.MODULUS = 28948022309329048855892746252171976963363056481941560715954676764349967630337 := by norm_num [Fp.MODULUS]
  rw [hP]
  apply lucas_cert 28948022309329048855892746252171976963363056481941560715954676764349967630337 5 (by norm_num) [2, 3, 463, 539204044132271846773, 8999194758858563409123804352480028797519453]
  · intro r hr hdvd
    have hfac : (28948022309329048855892746252171976963363056481941560715954676764349967630337 : ℕ) - 1 = 2 ^ 32 * (3 * (463 * (539204044132271846773 * (8999194758858563409123804352480028797519453)))) := by norm_num
    rw [hfac] at hdvd
    rcases prime_dvd_mul_cases hr hdvd with h | hdvd
    · simp [prime_eq_of_dvd_pow hr (by norm_num) h]
    rcases prime_dvd_mul_cases hr hdvd with h | hdvd
    · simp [prime_eq_of_dvd_prime hr (by norm_num) h]
    rcases prime_dvd_mul_cases hr hdvd with h | hdvd
    · simp [prime_eq_of_dvd_prime hr (by norm_num) h]
    rcases prime_dvd_mul_cases hr hdvd with h | hdvd
    · simp [prime_eq_of_dvd_prime hr prime_539204044132271846773 h]
    have h := hdvd
    simp [prime_eq_of_dvd_prime hr prime_8999194758858563409123804352480028797519453 h]
  · decide
  · intro r hr
    fin_cases hr <;> decide

theorem Fp_MODULUS_lt : Fp.MODULUS < 2 ^ 255 := by norm_num [Fp.MODULUS]

theorem Fp_MODULUS_odd : Fp.MODULUS % 2 = 1 := by norm_num [Fp.MODULUS]

theorem Fp_MODULUS_pos : 0 < Fp.MODULUS := by norm_num [Fp.MODULUS]

theorem Fp_MODULUS_lt256 : Fp.MODULUS < 256 ^ 32 := by norm_num [Fp.MODULUS]

/-- No point of the Pallas curve has x-coordinate zero: 5 is a quadratic
non-residue modulo `Fp.MODULUS`, certified by the Euler criterion. -/

theorem Fp_no_x_zero : ∀ par, ¬∃ y, matchingY Fp.MODULUS 0 par y :=
  no_matchingY_of_powMod Fp.MODULUS 0 Fp_MODULUS_prime
    (by norm_num [Fp.MODULUS]) (by decide) (by decide)

/-! ### Primality of the Vesta base-field modulus -/

theorem prime_958679 : Nat.Prime 958679 := by
  apply lucas_cert 958679 7 (by norm_num) [2, 7, 68477]
  · intro r hr hdvd
    have hfac : (958679 : ℕ) - 1 = 2 * (7 * (68477)) := by norm_num
    rw [hfac] at hdvd
    rcases prime_dvd_mul_cases hr hdvd with h | hdvd
    · simp [prime_eq_of_dvd_prime hr (by norm_num) h]
    rcases prime_dvd_mul_cases hr hdvd with h | hdvd
    · simp [prime_eq_of_dvd_prime hr (by norm_num) h]
    have h := hdvd
    simp [prime_eq_of_dvd_prime hr (by norm_num) h]
  · decide
  · intro r hr
    fin_cases hr <;> decide

theorem prime_4129989133 : Nat.Prime 4129989133 := by
  apply lucas_cert 4129989133 5 (by norm_num) [2, 3, 359, 958679]
  · intro r hr hdvd
    have hfac : (4129989133 : ℕ) - 1 = 2 ^ 2 * (3 * (359 * (958679))) := by norm_num
    rw [hfac] at hdvd
    rcases prime_dvd_mul_cases hr hdvd with h | hdvd
    · simp [prime_eq_of_dvd_pow hr (by norm_num) h]
    rcases prime_dvd_mul_cases hr hdvd with h | hdvd
    · simp [prime_eq_of_dvd_prime hr (by norm_num) h]
    rcases prime_dvd_mul_cases hr hdvd with h | hdvd
    · simp [prime_eq_of_dvd_prime hr (by norm_num) h]
    have h := hdvd
    simp [prime_eq_of_dvd_prime hr prime_958679 h]
  · decide
  · intro r hr
    fin_cases hr <;> decide

theorem prime_125803 : Nat.Prime 125803 := by
  apply lucas_cert 125803 3 (by norm_num) [2, 3, 29, 241]
  · intro r hr hdvd
    have hfac : (125803 : ℕ) - 1 = 2 * (3 ^ 2 * (29 * (241))) := by norm_num
    rw [hfac] at hdvd
    rcases prime_dvd_mul_cases hr hdvd with h | hdvd
    · simp [prime_eq_of_dvd_prime hr (by norm_num) h]
    rcases prime_dvd_mul_cases hr hdvd with h | hdvd
    · simp [prime_eq_of_dvd_pow hr (by norm_num) h]
    rcases prime_dvd_mul_cases hr hdvd with h | hdvd
    · simp [prime_eq_of_dvd_prime hr (by norm_num) h]
    have h := hdvd
    simp [prime_eq_of_dvd_prime hr (by norm_num) h]
  · decide
  · intro r hr
    fin_cases hr <;> decide

theorem prime_2012849 : Nat.Prime 2012849 := by
  apply lucas_cert 2012849 3 (by norm_num) [2, 125803]
  · intro r hr hdvd
    have hfac : (2012849 : ℕ) - 1 = 2 ^ 4 * (125803) := by norm_num
    rw [hfac] at hdvd
    rcases prime_dvd_mul_cases hr hdvd with h | hdvd
    · simp [prime_eq_of_dvd_pow hr (by norm_num) h]
    have h := hdvd
    simp [prime_eq_of_dvd_prime hr prime_125803 h]
  · decide
  · intro r hr
    fin_cases hr <;> decide

theorem prime_4025699 : Nat.Prime 4025699 := by
  apply lucas_cert 4025699 2 (by norm_num) [2, 2012849]
  · intro r hr hdvd
    have hfac : (4025699 : ℕ) - 1 = 2 * (2012849) := by norm_num
    rw [hfac] at hdvd
    rcases prime_dvd_mul_cases hr hdvd with h | hdvd
    · simp [prime_eq_of_dvd_prime hr (by norm_num) h]
    have h := hdvd
    simp [prime_eq_of_dvd_prime hr prime_2012849 h]
  · decide
  · intro r hr
    fin_cases hr <;> decide

theorem prime_80513981 : Nat.Prime 80513981 := by
  apply lucas_cert 80513981 2 (by norm_num) [2, 5, 4025699]
  · intro r hr hdvd
    have hfac : (80513981 : ℕ) - 1 = 2 ^ 2 * (5 * (4025699)) := by norm_num
    rw [hfac] at hdvd
    rcases prime_dvd_mul_cases hr hdvd with h | hdvd
    · simp [prime_eq_of_dvd_pow hr (by norm_num) h]
    rcases prime_dvd_mul_cases hr hdvd with h | hdvd
    · simp [prime_eq_of_dvd_prime hr (by norm_num) h]
    have h := hdvd
    simp [prime_eq_of_dvd_prime hr prime_4025699 h]
  · decide
  · intro r hr
    fin_cases hr <;> decide

theorem prime_5247740253619 : Nat.Prime 5247740253619 := by
  apply lucas_cert 5247740253619 2 (by norm_num) [2, 3, 17, 71, 80513981]
  · intro r hr hdvd
    have hfac : (5247740253619 : ℕ) - 1 = 2 * (3 ^ 3 * (17 * (71 * (80513981)))) := by norm_num
    rw [hfac] at hdvd
    rcases prime_dvd_mul_cases hr hdvd with h | hdvd
    · simp [prime_eq_of_dvd_prime hr (by norm_num) h]
    rcases prime_dvd_mul_cases hr hdvd with h | hdvd
    · simp [prime_eq_of_dvd_pow hr (by norm_num) h]
    rcases prime_dvd_mul_cases hr hdvd with h | hdvd
    · simp [prime_eq_of_dvd_prime hr (by norm_num) h]
    rcases prime_dvd_mul_cases hr hdvd with h | hdvd
    · simp [prime_eq_of_dvd_prime hr (by norm_num) h]
    have h := hdvd
    simp [prime_eq_of_dvd_prime hr prime_80513981 h]
  · decide
  · intro r hr
    fin_cases hr <;> decide

theorem prime_1690502597179744445941507 : Nat.Prime 1690502597179744445941507 := by
  apply lucas_cert 1690502597179744445941507 2 (by norm_num) [2, 3, 13, 4129989133, 5247740253619]
  · intro r hr hdvd
    have hfac : (1690502597179744445941507 : ℕ) - 1 = 2 * (3 * (13 * (4129989133 * (5247740253619)))) := by norm_num
    rw [hfac] at hdvd
    rcases prime_dvd_mul_cases hr hdvd with h | hdvd
    · simp [prime_eq_of_dvd_prime hr (by norm_num) h]
    rcases prime_dvd_mul_cases hr hdvd with h | hdvd
    · simp [prime_eq_of_dvd_prime hr (by norm_num) h]
    rcases prime_dvd_mul_cases hr hdvd with h | hdvd
    · simp [prime_eq_of_dvd_prime hr (by norm_num) h]
    rcases prime_dvd_mul_cases hr hdvd with h | hdvd
    · simp [prime_eq_of_dvd_prime hr prime_4129989133 h]
    have h := hdvd
    simp [prime_eq_of_dvd_prime hr prime_5247740253619 h]
  · decide
  · intro r hr
    fin_cases hr <;> decide

theorem prime_294793 : Nat.Prime 294793 := by
  apply lucas_cert 294793 10 (by norm_num) [2, 3, 71, 173]
  · intro r hr hdvd
    have hfac : (294793 : ℕ) - 1 = 2 ^ 3 * (3 * (71 * (173))) := by norm_num
    rw [hfac] at hdvd
    rcases prime_dvd_mul_cases hr hdvd with h | hdvd
    · simp [prime_eq_of_dvd_pow hr (by norm_num) h]
    rcases prime_dvd_mul_cases hr hdvd with h | hdvd
    · simp [prime_eq_of_dvd_prime hr (by norm_num) h]
    rcases prime_dvd_mul_cases hr hdvd with h | hdvd
    · simp [prime_eq_of_dvd_prime hr (by norm_num) h]
    have h := hdvd
    simp [prime_eq_of_dvd_prime hr (by norm_num) h]
  · decide
  · intro r hr
    fin_cases hr <;> decide

theorem prime_4229279 : Nat.Prime 4229279 := by
  apply lucas_cert 4229279 13 (by norm_num) [2, 827, 2557]
  · intro r hr hdvd
    have hfac : (4229279 : ℕ) - 1 = 2 * (827 * (2557)) := by norm_num
    rw [hfac] at hdvd
    rcases prime_dvd_mul_cases hr hdvd with h | hdvd
    · simp [prime_eq_of_dvd_prime hr (by norm_num) h]
    rcases prime_dvd_mul_cases hr hdvd with h | hdvd
    · simp [prime_eq_of_dvd_prime hr (by norm_num) h]
    have h := hdvd
    simp [prime_eq_of_dvd_prime hr (by norm_num) h]
  · decide
  · intro r hr
    fin_cases hr <;> decide

theorem prime_5701177 : Nat.Prime 5701177 := by
  apply lucas_cert 5701177 7 (by norm_num) [2, 3, 13, 6091]
  · intro r hr hdvd
    have hfac : (5701177 : ℕ) - 1 = 2 ^ 3 * (3 ^ 2 * (13 * (6091))) := by norm_num
    rw [hfac] at hdvd
    rcases prime_dvd_mul_cases hr hdvd with h | hdvd
    · simp [prime_eq_of_dvd_pow hr (by norm_num) h]
    rcases prime_dvd_mul_cases hr hdvd with h | hdvd
    · simp [prime_eq_of_dvd_pow hr (by norm_num) h]
    rcases prime_dvd_mul_cases hr hdvd with h | hdvd
    · simp [prime_eq_of_dvd_prime hr (by norm_num) h]
    have h := hdvd
    simp [prime_eq_of_dvd_prime hr (by norm_num) h]
  · decide
  · intro r hr
    fin_cases hr <;> decide

theorem prime_399082391 : Nat.Prime 399082391 := by
  apply lucas_cert 399082391 7 (by norm_num) [2, 5, 7, 5701177]
  · intro r hr hdvd
    have hfac : (399082391 : ℕ) - 1 = 2 * (5 * (7 * (5701177))) := by norm_num
    rw [hfac] at hdvd
    rcases prime_dvd_mul_cases hr hdvd with h | hdvd
    · simp [prime_eq_of_dvd_prime hr (by norm_num) h]
    rcases prime_dvd_mul_cases hr hdvd with h | hdvd
    · simp [prime_eq_of_dvd_prime hr (by norm_num) h]
    rcases prime_dvd_mul_cases hr hdvd with h | hdvd
    · simp [prime_eq_of_dvd_prime hr (by norm_num) h]
    have h := hdvd
    simp [prime_eq_of_dvd_prime hr prime_5701177 h]
  · decide
  · intro r hr
    fin_cases hr <;> decide

theorem prime_5239247429827 : Nat.Prime 5239247429827 := by
  apply lucas_cert 5239247429827 2 (by norm_num) [2, 3, 757, 12149, 31649]
  · intro r hr hdvd
    have hfac : (5239247429827 : ℕ) - 1 = 2 * (3 ^ 2 * (757 * (12149 * (31649)))) := by norm_num
    rw [hfac] at hdvd
    rcases prime_dvd_mul_cases hr hdvd with h | hdvd
    · simp [prime_eq_of_dvd_prime hr (by norm_num) h]
    rcases prime_dvd_mul_cases hr hdvd with h | hdvd
    · simp [prime_eq_of_dvd_pow hr (by norm_num) h]
    rcases prime_dvd_mul_cases hr hdvd with h | hdvd
    · simp [prime_eq_of_dvd_prime hr (by norm_num) h]
    rcases prime_dvd_mul_cases hr hdvd with h | hdvd
    · simp [prime_eq_of_dvd_prime hr (by norm_num) h]
    have h := hdvd
    simp [prime_eq_of_dvd_prime hr (by norm_num) h]
  · decide
  · intro r hr
    fin_cases hr <;> decide

theorem prime_10427374428728808478656897599072717 : Nat.Prime 10427374428728808478656897599072717 := by
  apply lucas_cert 10427374428728808478656897599072717 2 (by norm_num) [2, 294793, 4229279, 399082391, 5239247429827]
  · intro r hr hdvd
    have hfac : (10427374428728808478656897599072717 : ℕ) - 1 = 2 ^ 2 * (294793 * (4229279 * (399082391 * (5239247429827)))) := by norm_num
    rw [hfac] at hdvd
    rcases prime_dvd_mul_cases hr hdvd with h | hdvd
    · simp [prime_eq_of_dvd_pow hr (by norm_num) h]
    rcases prime_dvd_mul_cases hr hdvd with h | hdvd
    · simp [prime_eq_of_dvd_prime hr prime_294793 h]
    rcases prime_dvd_mul_cases hr hdvd with h | hdvd
    · simp [prime_eq_of_dvd_prime hr prime_4229279 h]
    rcases prime_dvd_mul_cases hr hdvd with h | hdvd
    · simp [prime_eq_of_dvd_prime hr prime_399082391 h]
    have h := hdvd
    simp [prime_eq_of_dvd_prime hr prime_5239247429827 h]
  · decide
  · intro r hr
    fin_cases hr <;> decide

theorem Fq_MODULUS_prime : Nat.Prime Fq.MODULUS := by
  have hQ : Fq.MODULUS = 28948022309329048855892746252171976963363056481941647379679742748393362948097 := by norm_num [Fq.MODULUS]
  rw [hQ]
  apply lucas_cert 28948022309329048855892746252171976963363056481941647379679742748393362948097 5 (by norm_num) [2, 3, 1709, 24859, 1690502597179744445941507, 10427374428728808478656897599072717]
  · intro r hr hdvd
    have hfac : (28948022309329048855892746252171976963363056481941647379679742748393362948097 : ℕ) - 1 = 2 ^ 32 * (3 ^ 2 * (1709 * (24859 * (1690502597179744445941507 * (10427374428728808478656897599072717))))) := by norm_num
    rw [hfac] at hdvd
    rcases prime_dvd_mul_cases hr hdvd with h | hdvd
    · simp [prime_eq_of_dvd_pow hr (by norm_num) h]
    rcases prime_dvd_mul_cases hr hdvd with h | hdvd
    · simp [prime_eq_of_dvd_pow hr (by norm_num) h]
    rcases prime_dvd_mul_cases hr hdvd with h | hdvd
    · simp [prime_eq_of_dvd_prime hr (by norm_num) h]
    rcases prime_dvd_mul_cases hr hdvd with h | hdvd
    · simp [prime_eq_of_dvd_prime hr (by norm_num) h]
    rcases prime_dvd_mul_cases hr hdvd with h | hdvd
    · simp [prime_eq_of_dvd_prime hr prime_1690502597179744445941507 h]
    have h := hdvd
    simp [prime_eq_of_dvd_prime hr prime_10427374428728808478656897599072717 h]
  · decide
  · intro r hr
    fin_cases hr <;> decide

theorem Fq_MODULUS_lt : Fq.MODULUS < 2 ^ 255 := by norm_num [Fq.MODULUS]

theorem Fq_MODULUS_odd : Fq.MODULUS % 2 = 1 := by norm_num [Fq.MODULUS]

theorem Fq_MODULUS_pos : 0 < Fq.MODULUS := by norm_num [Fq.MODULUS]

theorem Fq_MODULUS_lt256 : Fq.MODULUS < 256 ^ 32 := by norm_num [Fq.MODULUS]

/-- No point of the Vesta curve has x-coordinate zero: 5 is a quadratic
non-residue modulo `Fq.MODULUS`, certified by the Euler criterion. -/

theorem Fq_no_x_zero : ∀ par, ¬∃ y, matchingY Fq.MODULUS 0 par y :=
  no_matchingY_of_powMod Fq.MODULUS 0 Fq_MODULUS_prime
    (by norm_num [Fq.MODULUS]) (by decide) (by decide)

/-! ### The claims -/

/-- C1: Every public-facing decode entry point validates fully: for each of
the four types (`Fp`, `Fq`, `EpAffine`, `EqAffine`), `deserialize` succeeds
on a byte leaf only if the leaf is exactly the canonical encoding of a
valid value of the type — a canonical field integer, and for points a
valid on-curve point or the identity. -/

theorem C1_checked_validation :
    (∀ (bs : List ℕ) (e : Fp), (∀ b ∈ bs, b < 256) →
      Fp.deserialize bs = .ok e → e.val < Fp.MODULUS ∧ bs = Fp.serialize e) ∧
    (∀ (bs : List ℕ) (e : Fq), (∀ b ∈ bs, b < 256) →
      Fq.deserialize bs = .ok e → e.val < Fq.MODULUS ∧ bs = Fq.serialize e) ∧
    (∀ (bs : List ℕ) (p : EpAffine), (∀ b ∈ bs, b < 256) →
      EpAffine.deserialize bs = .ok p → p.IsValid ∧ bs = EpAffine.serialize p) ∧
    (∀ (bs : List ℕ) (p : EqAffine), (∀ b ∈ bs, b < 256) →
      EqAffine.deserialize bs = .ok p → p.IsValid ∧ bs = EqAffine.serialize p) := by
  refine ⟨?_, ?_, ?_, ?_⟩
  · intro bs e hb h
    obtain ⟨-, -, h3⟩ := fieldDeserialize_sound hb h
    exact ⟨e.isLt, h3⟩
  · intro bs e hb h
    obtain ⟨-, -, h3⟩ := fieldDeserialize_sound hb h
    exact ⟨e.isLt, h3⟩
  · intro bs p hb h
    obtain ⟨-, h2, h3⟩ := pointDeserialize_sound hb h
    exact ⟨h2, h3⟩
  · intro bs p hb h
    obtain ⟨-, h2, h3⟩ := pointDeserialize_sound hb h
    exact ⟨h2, h3⟩

theorem C1_checked_validation_witness :
    AffinePt.IsValid (M := Fp.MODULUS) .identity ∧
    List.replicate 32 0 = EpAffine.serialize .identity :=
  C1_checked_validation.2.2.1 (List.replicate 32 0) .identity
    (by decide) (by decide)

/-- C3: Round-trip — deserializing the bytes produced by serializing any
field element of `Fp` or `Fq` yields `Ok` of that element, and likewise for
every valid affine point of either curve, the identity included. -/

theorem C3_roundtrip :
    (∀ e : Fp, Fp.deserialize (Fp.serialize e) = .ok e) ∧
    (∀ e : Fq, Fq.deserialize (Fq.serialize e) = .ok e) ∧
    (∀ p : EpAffine, p.IsValid →
      EpAffine.deserialize (EpAffine.serialize p) = .ok p) ∧
    (∀ p : EqAffine, p.IsValid →
      EqAffine.deserialize (EqAffine.serialize p) = .ok p) :=
  ⟨fun e => fieldDeserialize_to_repr Fp_MODULUS_lt256 e,
   fun e => fieldDeserialize_to_repr Fq_MODULUS_lt256 e,
   fun _ hv => pointDeserialize_to_bytes Fp_MODULUS_prime Fp_MODULUS_odd
     Fp_MODULUS_lt Fp_no_x_zero hv,
   fun _ hv => pointDeserialize_to_bytes Fq_MODULUS_prime Fq_MODULUS_odd
     Fq_MODULUS_lt Fq_no_x_zero hv⟩

theorem C3_roundtrip_witness :
    EpAffine.deserialize (EpAffine.serialize EpAffine.generator) =
      .ok EpAffine.generator :=
  C3_roundtrip.2.2.1 EpAffine.generator (by decide)

/-- C4: Out-of-range rejection — a 32-byte string whose little-endian
integer is at least the field modulus is rejected by the field
deserializers of `Fp` and `Fq`. -/

theorem C4_out_of_range :
    (∀ bs : List ℕ, bs.length = 32 → Fp.MODULUS ≤ leVal bs →
      Fp.deserialize bs = .error .invalidEncoding) ∧
    (∀ bs : List ℕ, bs.length = 32 → Fq.MODULUS ≤ leVal bs →
      Fq.deserialize bs = .error .invalidEncoding) :=
  ⟨fun _ _ h => fieldDeserialize_err_of_ge h,
   fun _ _ h => fieldDeserialize_err_of_ge h⟩

theorem C4_out_of_range_witness :
    Fp.deserialize (leBytes 32 Fp.MODULUS) = .error .invalidEncoding :=
  C4_out_of_range.1 (leBytes 32 Fp.MODULUS) (by decide) (by decide)

/-- C8: A leaf whose length is not exactly 32 bytes is rejected for all
four types before any codec validation runs, with the same uniform
`invalidEncoding` error a failed canonicality check produces — the result
is literally the same value the out-of-range leaf `leBytes 32 Fp.MODULUS`
produces, so length and content failures are indistinguishable. -/

theorem C8_length_uniform :
    ∀ bs : List ℕ, bs.length ≠ 32 →
      Fp.deserialize bs = .error .invalidEncoding ∧
      Fq.deserialize bs = .error .invalidEncoding ∧
      EpAffine.deserialize bs = .error .invalidEncoding ∧
      EqAffine.deserialize bs = .error .invalidEncoding ∧
      Fp.deserialize bs = Fp.deserialize (leBytes 32 Fp.MODULUS) := by
  intro bs h
  have h1 : Fp.deserialize bs = .error .invalidEncoding :=
    fieldDeserialize_err_of_len h
  have h2 : Fp.deserialize (leBytes 32 Fp.MODULUS) = .error .invalidEncoding :=
    fieldDeserialize_err_of_ge (by decide)
  refine ⟨h1, fieldDeserialize_err_of_len h, pointDeserialize_err_of_len h,
          pointDeserialize_err_of_len h, ?_⟩
  rw [h1, h2]

theorem C8_length_uniform_witness :
    Fp.deserialize [] = .error .invalidEncoding ∧
    Fq.deserialize [] = .error .invalidEncoding ∧
    EpAffine.deserialize [] = .error .invalidEncoding ∧
    EqAffine.deserialize [] = .error .invalidEncoding ∧
    Fp.deserialize [] = Fp.deserialize (leBytes 32 Fp.MODULUS) :=
  C8_length_uniform [] (by decide)

/-- C9: Decode is total and all-or-nothing — on every byte-string leaf each
of the four deserializers returns either `Ok` of a fully valid value (a
canonical field element, or a valid point) or the uniform error; the model
is a total function, mirroring that the code never panics. -/

theorem C9_total :
    ∀ bs : List ℕ, (∀ b ∈ bs, b < 256) →
      ((∃ e : Fp, Fp.deserialize bs = .ok e ∧ e.val < Fp.MODULUS) ∨
        Fp.deserialize bs = .error .invalidEncoding) ∧
      ((∃ e : Fq, Fq.deserialize bs = .ok e ∧ e.val < Fq.MODULUS) ∨
        Fq.deserialize bs = .error .invalidEncoding) ∧
      ((∃ p : EpAffine, EpAffine.deserialize bs = .ok p ∧ p.IsValid) ∨
        EpAffine.deserialize bs = .error .invalidEncoding) ∧
      ((∃ p : EqAffine, EqAffine.deserialize bs = .ok p ∧ p.IsValid) ∨
        EqAffine.deserialize bs = .error .invalidEncoding) := by
  intro bs hb
  refine ⟨?_, ?_, ?_, ?_⟩
  · cases h : Fp.deserialize bs with
    | error err => cases err; exact Or.inr rfl
    | ok e => exact Or.inl ⟨e, rfl, e.isLt⟩
  · cases h : Fq.deserialize bs with
    | error err => cases err; exact Or.inr rfl
    | ok e => exact Or.inl ⟨e, rfl, e.isLt⟩
  · cases h : EpAffine.deserialize bs with
    | error err => cases err; exact Or.inr rfl
    | ok p => exact Or.inl ⟨p, rfl, (pointDeserialize_sound hb h).2.1⟩
  · cases h : EqAffine.deserialize bs with
    | error err => cases err; exact Or.inr rfl
    | ok p => exact Or.inl ⟨p, rfl, (pointDeserialize_sound hb h).2.1⟩

theorem C9_total_witness :
    ((∃ e : Fp, Fp.deserialize [] = .ok e ∧ e.val < Fp.MODULUS) ∨
      Fp.deserialize [] = .error .invalidEncoding) ∧
    ((∃ e : Fq, Fq.deserialize [] = .ok e ∧ e.val < Fq.MODULUS) ∨
      Fq.deserialize [] = .error .invalidEncoding) ∧
    ((∃ p : EpAffine, EpAffine.deserialize [] = .ok p ∧ p.IsValid) ∨
      EpAffine.deserialize [] = .error .invalidEncoding) ∧
    ((∃ p : EqAffine, EqAffine.deserialize [] = .ok p ∧ p.IsValid) ∨
      EqAffine.deserialize [] = .error .invalidEncoding) :=
  C9_total [] (by decide)

/-- C10: Although point deserialization is wired through the primitive
named `from_bytes_unchecked`, it still performs the field-canonicality
step: a 32-byte input whose candidate x-coordinate bytes (after clearing
the parity bit) are not a canonical field integer is rejected with `Err`
for both `EpAffine` and `EqAffine`. -/

theorem C10_unchecked_path_field_check :
    (∀ bs : List ℕ, bs.length = 32 → Fp.MODULUS ≤ leVal bs % 2 ^ 255 →
      EpAffine.deserialize bs = .error .invalidEncoding) ∧
    (∀ bs : List ℕ, bs.length = 32 → Fq.MODULUS ≤ leVal bs % 2 ^ 255 →
      EqAffine.deserialize bs = .error .invalidEncoding) :=
  ⟨fun _ hlen hx => pointDeserialize_err_of_x_ge Fp_MODULUS_pos hlen hx,
   fun _ hlen hx => pointDeserialize_err_of_x_ge Fq_MODULUS_pos hlen hx⟩

theorem C10_unchecked_path_field_check_witness :
    EpAffine.deserialize (leBytes 32 Fp.MODULUS) = .error .invalidEncoding :=
  C10_unchecked_path_field_check.1 (leBytes 32 Fp.MODULUS)
    (by decide) (by decide)

/-- C2 (counterexample): the claim as stated fails at the all-zero 32-byte
input — its extracted x-coordinate 0 and parity bit 0 have no matching
on-curve y (5 is a quadratic non-residue modulo the Pallas modulus), yet
the public decode returns `Ok Identity` rather than `Err`. -/

theorem C2_offcurve_counterexample :
    (¬∃ y, matchingY Fp.MODULUS (leVal (List.replicate 32 0) % 2 ^ 255)
        (leVal (List.replicate 32 0) / 2 ^ 255) y) ∧
    EpAffine.deserialize (List.replicate 32 0) = .ok .identity ∧
    ∀ err : DecodeError,
      EpAffine.deserialize (List.replicate 32 0) ≠ .error err := by
  refine ⟨?_, by decide, ?_⟩
  · have h0 : leVal (List.replicate 32 0) = 0 := leVal_replicate_zero 32
    rw [h0]
    simpa using Fp_no_x_zero 0
  · intro err
    cases err
    decide

/-- C2 (amended): for every 32-byte input other than the all-zero identity
encoding, when the extracted x-coordinate and parity bit have no matching
on-curve y, the public point decode of either curve returns `Err` rather
than any `Ok` value. -/

theorem C2_offcurve_rejection :
    (∀ bs : List ℕ, bs.length = 32 → leVal bs ≠ 0 →
      (¬∃ y, matchingY Fp.MODULUS (leVal bs % 2 ^ 255) (leVal bs / 2 ^ 255) y) →
      EpAffine.deserialize bs = .error .invalidEncoding) ∧
    (∀ bs : List ℕ, bs.length = 32 → leVal bs ≠ 0 →
      (¬∃ y, matchingY Fq.MODULUS (leVal bs % 2 ^ 255) (leVal bs / 2 ^ 255) y) →
      EqAffine.deserialize bs = .error .invalidEncoding) :=
  ⟨fun _ hlen hnz hno => pointDeserialize_err_of_no_matching hlen hnz hno,
   fun _ hlen hnz hno => pointDeserialize_err_of_no_matching hlen hnz hno⟩

theorem C2_offcurve_rejection_witness :
    EpAffine.deserialize (leBytes 32 2) = .error .invalidEncoding := by
  have hno := no_matchingY_of_powMod Fp.MODULUS 2 Fp_MODULUS_prime
    (by norm_num [Fp.MODULUS]) (by decide) (by decide)
  refine C2_offcurve_rejection.1 (leBytes 32 2) (by decide) (by decide) ?_
  have h2 : leVal (leBytes 32 2) = 2 := by decide
  have h25 : (2 : ℕ) % 2 ^ 255 = 2 := by norm_num
  have h20 : (2 : ℕ) / 2 ^ 255 = 0 := Nat.div_eq_of_lt (by norm_num)
  rw [h2, h25, h20]
  exact hno 0

/-- C5: identity canonical form — for both curves, encoding the identity
yields exactly 32 zero bytes, decoding 32 zero bytes yields `Ok Identity`,
and no valid non-identity point encodes to the all-zero string. -/

theorem C5_identity_canonical :
    (EpAffine.serialize .identity = List.replicate 32 0 ∧
     EpAffine.deserialize (List.replicate 32 0) = .ok .identity ∧
     ∀ p : EpAffine, p.IsValid → p ≠ .identity →
       EpAffine.serialize p ≠ List.replicate 32 0) ∧
    (EqAffine.serialize .identity = List.replicate 32 0 ∧
     EqAffine.deserialize (List.replicate 32 0) = .ok .identity ∧
     ∀ p : EqAffine, p.IsValid → p ≠ .identity →
       EqAffine.serialize p ≠ List.replicate 32 0) := by
  refine ⟨⟨rfl, by decide, ?_⟩, ⟨rfl, by decide, ?_⟩⟩
  · intro p hv hne hser
    exact hne (to_bytes_inj Fp_MODULUS_prime Fp_MODULUS_odd Fp_MODULUS_lt
      Fp_no_x_zero hv trivial hser)
  · intro p hv hne hser
    exact hne (to_bytes_inj Fq_MODULUS_prime Fq_MODULUS_odd Fq_MODULUS_lt
      Fq_no_x_zero hv trivial hser)

theorem C5_identity_canonical_witness :
    EpAffine.serialize EpAffine.generator ≠ List.replicate 32 0 :=
  C5_identity_canonical.1.2.2 EpAffine.generator (by decide) (by decide)

/-- C6: injectivity — for both field types and both point types, equal
serializations imply equal values (for points, among valid points, which
is the invariant of every live value). -/

theorem C6_injective :
    (∀ a b : Fp, Fp.serialize a = Fp.serialize b → a = b) ∧
    (∀ a b : Fq, Fq.serialize a = Fq.serialize b → a = b) ∧
    (∀ a b : EpAffine, a.IsValid → b.IsValid →
      EpAffine.serialize a = EpAffine.serialize b → a = b) ∧
    (∀ a b : EqAffine, a.IsValid → b.IsValid →
      EqAffine.serialize a = EqAffine.serialize b → a = b) :=
  ⟨fun _ _ h => to_repr_inj Fp_MODULUS_lt256 h,
   fun _ _ h => to_repr_inj Fq_MODULUS_lt256 h,
   fun _ _ hva hvb h => to_bytes_inj Fp_MODULUS_prime Fp_MODULUS_odd
     Fp_MODULUS_lt Fp_no_x_zero hva hvb h,
   fun _ _ hva hvb h => to_bytes_inj Fq_MODULUS_prime Fq_MODULUS_odd
     Fq_MODULUS_lt Fq_no_x_zero hva hvb h⟩

theorem C6_injective_witness : Fp.one = Fp.one ∧ EpAffine.generator = EpAffine.generator :=
  ⟨C6_injective.1 Fp.one Fp.one rfl,
   C6_injective.2.2.1 EpAffine.generator EpAffine.generator
     (by decide) (by decide) rfl⟩

/-- C7: literal vectors — per curve, the zero field element encodes to 32
zero bytes, the one field element to `[1, 0, …, 0]`, the identity point to
32 zero bytes, and the generator to the recorded 32-byte vector, which
decodes back to the generator. -/

theorem C7_literal_vectors :
    Fp.serialize Fp.zero = List.replicate 32 0 ∧
    Fp.serialize Fp.one = 1 :: List.replicate 31 0 ∧
    Fq.serialize Fq.zero = List.replicate 32 0 ∧
    Fq.serialize Fq.one = 1 :: List.replicate 31 0 ∧
    EpAffine.serialize .identity = List.replicate 32 0 ∧
    EqAffine.serialize .identity = List.replicate 32 0 ∧
    EpAffine.serialize EpAffine.generator = epGenBytes ∧
    EpAffine.deserialize epGenBytes = .ok EpAffine.generator ∧
    EqAffine.serialize EqAffine.generator = eqGenBytes ∧
    EqAffine.deserialize eqGenBytes = .ok EqAffine.generator := by
  have hep : AffinePt.to_bytes EpAffine.generator = epGenBytes := by decide
  have heq : AffinePt.to_bytes EqAffine.generator = eqGenBytes := by decide
  have hvp : AffinePt.IsValid EpAffine.generator := by decide
  have hvq : AffinePt.IsValid EqAffine.generator := by decide
  have hrtp := pointDeserialize_to_bytes Fp_MODULUS_prime Fp_MODULUS_odd
    Fp_MODULUS_lt Fp_no_x_zero hvp
  have hrtq := pointDeserialize_to_bytes Fq_MODULUS_prime Fq_MODULUS_odd
    Fq_MODULUS_lt Fq_no_x_zero hvq
  rw [hep] at hrtp
  rw [heq] at hrtq
  exact ⟨by decide, by decide, by decide, by decide, rfl, rfl, hep, hrtp,
         heq, hrtq⟩

end FilPasta
